import Mathlib

/-!
Shallow embedding of the selection algebra (`crates/editor/src/editor_util.rs`)
and of the text-layout cache (`crates/gpui/src/elements/text.rs`) of this
repository, together with theorems settling the frozen claims about them.

Modelling conventions:
* Rust `u32` row/column indices are modelled as `Nat` (no claim depends on
  32-bit wrap-around).
* `Pixels` (an ordered numeric scalar) is modelled as `Int`; the claims under
  scrutiny only compare, add and maximise pixel values, so an integral model is
  faithful (with whole pixels, the `ceil` in the size computation is the
  identity and is omitted).
* A Rust panic (`unwrap` / `expect` on a violated precondition) is modelled by
  the `none` case of an `Option`-valued result; a normal return `v` is `some v`.
* The external shaper is an opaque parameter: `shape_text` is modelled by an
  `Option (List WrappedLine)` argument (`none` models `Err`), and each
  `WrappedLine` carries its per-line geometry as opaque function fields,
  exactly as the layout code treats them.
-/

namespace Zed

/-! ## `language::Point` and `language::Selection` -/

/-- Buffer position: zero-based row and column (`language::Point`). -/
structure Point where
  row : Nat
  column : Nat
deriving DecidableEq

/-- `language::Selection<T>`: an ordered pair of positions plus the fields the
selection algorithms carry along untouched. -/
structure Selection (T : Type) where
  id : Nat
  start : T
  «end» : T
  reversed : Bool
deriving DecidableEq

/-- `Selection::is_empty`: `self.start == self.end`. -/
def Selection.is_empty {T : Type} [DecidableEq T] (s : Selection T) : Bool :=
  decide (s.start = s.«end»)

/-- The display map is consumed only through `next_line_boundary`, which maps a
buffer position to the buffer position of the next display-line boundary. -/
structure DisplaySnapshot where
  next_line_boundary : Point → Point

/-! ## `end_row_for` (editor_util.rs lines 9-15) -/

/-- `end_row_for`: exclusive upper bound of the display rows covered by a
selection. -/
def end_row_for (selection : Selection Point) (display_map : DisplaySnapshot) : Nat :=
  if 0 < selection.«end».column ∨ selection.is_empty = true then
    (display_map.next_line_boundary selection.«end»).row + 1
  else
    selection.«end».row

/-! ## `ContiguousRowRanges::next` (editor_util.rs lines 54-77) -/

/-- The absorption loop of `ContiguousRowRanges::next`: while the next
selection's start row is `≤ end_row`, consume it and replace `end_row` by its
resolved end row.  Returns the final `end_row`, the consumed selections in
order, and the unconsumed remainder. -/
def groupLoop (display_map : DisplaySnapshot) (end_row : Nat) :
    List (Selection Point) → Nat × List (Selection Point) × List (Selection Point)
  | [] => (end_row, [], [])
  | s :: rest =>
    if s.start.row ≤ end_row then
      let r := groupLoop display_map (end_row_for s display_map) rest
      (r.1, s :: r.2.1, r.2.2)
    else
      (end_row, [], s :: rest)

/-- One call of `ContiguousRowRanges::next` on the remaining input list:
returns the emitted `(start_row..end_row, cluster)` item together with the
remaining input, or `none` when the input is exhausted. -/
def ContiguousRowRanges.next (display_map : DisplaySnapshot) :
    List (Selection Point) →
      Option (((Nat × Nat) × List (Selection Point)) × List (Selection Point))
  | [] => none
  | selection :: rest =>
    let r := groupLoop display_map (end_row_for selection display_map) rest
    some (((selection.start.row, r.1), selection :: r.2.1), r.2.2)

/-! ## `MergedOverlappingSelections::next` (editor_util.rs lines 79-104) -/

/-- The folding loop of `MergedOverlappingSelections::next`: while
`selection.end >= next.start`, lower `start` and raise `end` as the source does
with its two conditionals, consuming the next selection.  Returns the merged
selection and the unconsumed remainder. -/
def mergeGroup {T : Type} [LinearOrder T] (selection : Selection T) :
    List (Selection T) → Selection T × List (Selection T)
  | [] => (selection, [])
  | n :: rest =>
    if n.start ≤ selection.«end» then
      mergeGroup
        { selection with
          start := if n.start < selection.start then n.start else selection.start
          «end» := if selection.«end» < n.«end» then n.«end» else selection.«end» }
        rest
    else
      (selection, n :: rest)

theorem mergeGroup_snd_length {T : Type} [LinearOrder T] (selection : Selection T)
    (l : List (Selection T)) : (mergeGroup selection l).2.length ≤ l.length := by
  induction l generalizing selection with
  | nil => simp [mergeGroup]
  | cons n rest ih =>
    by_cases h : n.start ≤ selection.«end»
    · simp only [mergeGroup, if_pos h]
      exact le_trans (ih _) (Nat.le_succ _)
    · simp [mergeGroup, if_neg h]

/-- Running the merging iterator to exhaustion over a finite input list. -/
def mergeAll {T : Type} [LinearOrder T] : List (Selection T) → List (Selection T)
  | [] => []
  | s :: rest =>
    (mergeGroup s rest).1 :: mergeAll (mergeGroup s rest).2
termination_by l => l.length
decreasing_by
  simp only [List.length_cons]
  exact Nat.lt_succ_of_le (mergeGroup_snd_length _ _)

theorem mergeAll_nil {T : Type} [LinearOrder T] :
    mergeAll ([] : List (Selection T)) = [] := by
  rw [mergeAll]

theorem mergeAll_cons {T : Type} [LinearOrder T] (s : Selection T)
    (rest : List (Selection T)) :
    mergeAll (s :: rest) = (mergeGroup s rest).1 :: mergeAll (mergeGroup s rest).2 := by
  rw [mergeAll]

/-! ## Facts about the grouping loop -/

/-- The `end_row` returned by the absorption loop is either the seed (no
selection was consumed) or the resolved end row of the last consumed
selection: each absorption step replaces `end_row` outright. -/
theorem groupLoop_end_row (display_map : DisplaySnapshot) :
    ∀ (l : List (Selection Point)) (e0 : Nat),
      ((groupLoop display_map e0 l).2.1 = [] ∧ (groupLoop display_map e0 l).1 = e0) ∨
      ∃ last, (groupLoop display_map e0 l).2.1.getLast? = some last ∧
        (groupLoop display_map e0 l).1 = end_row_for last display_map := by
  intro l
  induction l with
  | nil => intro e0; left; simp [groupLoop]
  | cons s rest ih =>
    intro e0
    by_cases hc : s.start.row ≤ e0
    · simp only [groupLoop, if_pos hc]
      rcases ih (end_row_for s display_map) with ⟨hnil, he⟩ | ⟨last, hlast, he⟩
      · right
        exact ⟨s, by simp [hnil], he⟩
      · right
        refine ⟨last, ?_, he⟩
        cases hrem : (groupLoop display_map (end_row_for s display_map) rest).2.1 with
        | nil => rw [hrem] at hlast; simp at hlast
        | cons a t =>
          rw [hrem] at hlast
          simpa [List.getLast?_cons_cons] using hlast
    · left; simp [groupLoop, if_neg hc]

/-! ## Facts about the merging loop -/

theorem mergeGroup_fst_start {T : Type} [LinearOrder T] :
    ∀ (l : List (Selection T)) (sel : Selection T),
      (∀ x ∈ l, sel.start ≤ x.start) → (mergeGroup sel l).1.start = sel.start := by
  intro l
  induction l with
  | nil => intro sel _; simp [mergeGroup]
  | cons n rest ih =>
    intro sel h
    by_cases hc : n.start ≤ sel.«end»
    · have hns : ¬ n.start < sel.start := not_lt.mpr (h n (by simp))
      simp only [mergeGroup, if_pos hc]
      rw [ih _ ?_]
      · simp [hns]
      · intro x hx
        simpa [hns] using h x (by simp [hx])
    · simp [mergeGroup, if_neg hc]

theorem mergeGroup_snd_suffix {T : Type} [LinearOrder T] :
    ∀ (l : List (Selection T)) (sel : Selection T),
      (mergeGroup sel l).2.IsSuffix l := by
  intro l
  induction l with
  | nil => intro sel; simp [mergeGroup]
  | cons n rest ih =>
    intro sel
    by_cases hc : n.start ≤ sel.«end»
    · simp only [mergeGroup, if_pos hc]
      exact (ih _).trans (List.suffix_cons n rest)
    · simp [mergeGroup, if_neg hc]

theorem mergeGroup_snd_head {T : Type} [LinearOrder T] :
    ∀ (l : List (Selection T)) (sel : Selection T) (r : Selection T),
      (mergeGroup sel l).2.head? = some r → (mergeGroup sel l).1.«end» < r.start := by
  intro l
  induction l with
  | nil => intro sel r h; simp [mergeGroup] at h
  | cons n rest ih =>
    intro sel r h
    by_cases hc : n.start ≤ sel.«end»
    · simp only [mergeGroup, if_pos hc] at h ⊢
      exact ih _ _ h
    · simp only [mergeGroup, if_neg hc] at h ⊢
      obtain rfl : n = r := by simpa using h
      exact not_le.mp hc

/-- For a start-sorted input, the merger's output is separated: every
emitted selection ends strictly before the next one starts. -/
theorem mergeAll_chain {T : Type} [LinearOrder T] :
    ∀ (n : Nat) (l : List (Selection T)), l.length ≤ n →
      List.Pairwise (fun a b => a.start ≤ b.start) l →
      List.Chain' (fun a b => a.«end» < b.start) (mergeAll l) := by
  intro n
  induction n with
  | zero =>
    intro l hl _
    rw [Nat.le_zero, List.length_eq_zero] at hl
    subst hl
    simp [mergeAll_nil]
  | succ n ih =>
    intro l hl hp
    cases l with
    | nil => simp [mergeAll_nil]
    | cons s rest =>
      rw [mergeAll_cons, List.chain'_cons']
      have hsuffix := mergeGroup_snd_suffix rest s
      have hrest_pair : List.Pairwise (fun a b => a.start ≤ b.start)
          (mergeGroup s rest).2 :=
        (List.Pairwise.sublist hsuffix.sublist (List.Pairwise.of_cons hp))
      have hrest_len : (mergeGroup s rest).2.length ≤ n :=
        le_trans (mergeGroup_snd_length s rest) (Nat.succ_le_succ_iff.mp (by simpa using hl))
      refine ⟨?_, ih _ hrest_len hrest_pair⟩
      intro b hb
      cases hrem : (mergeGroup s rest).2 with
      | nil => rw [hrem] at hb; simp [mergeAll_nil] at hb
      | cons r rem =>
        rw [hrem, mergeAll_cons] at hb
        simp only [List.head?_cons, Option.mem_def, Option.some.injEq] at hb
        subst hb
        have hr_start : (mergeGroup r rem).1.start = r.start := by
          refine mergeGroup_fst_start rem r ?_
          intro x hx
          have hpr : List.Pairwise (fun a b => a.start ≤ b.start) (r :: rem) :=
            hrem ▸ hrest_pair
          exact (List.pairwise_cons.mp hpr).1 x hx
        rw [hr_start]
        exact mergeGroup_snd_head rest s r (by simp [hrem])

/-- The merger is the identity on a separated list. -/
theorem mergeAll_of_chain {T : Type} [LinearOrder T] :
    ∀ (l : List (Selection T)),
      List.Chain' (fun a b => a.«end» < b.start) l → mergeAll l = l := by
  intro l
  induction l with
  | nil => intro _; simp [mergeAll_nil]
  | cons s rest ih =>
    intro h
    have h1 : mergeGroup s rest = (s, rest) := by
      cases rest with
      | nil => simp [mergeGroup]
      | cons n rest' =>
        have hlt : s.«end» < n.start := (List.chain'_cons.mp h).1
        simp [mergeGroup, if_neg (not_le.mpr hlt)]
    rw [mergeAll_cons, h1]
    exact congrArg _ (ih h.tail)

/-! ## Concrete inputs used by the claim theorems -/

/-- A display snapshot in which the next line boundary of a position is the
start of the row containing it (no folds or soft wraps move rows around). -/
def dmRowId : DisplaySnapshot := ⟨fun p => ⟨p.row, 0⟩⟩

/-- Non-empty selection from `(0,0)` to `(5,0)`: ends at a row start, so its
resolved end row is `5`. -/
def selTall : Selection Point := ⟨0, ⟨0, 0⟩, ⟨5, 0⟩, false⟩

/-- Empty selection (cursor) at `(1,1)`: resolved end row is `2`. -/
def selCursor : Selection Point := ⟨1, ⟨1, 1⟩, ⟨1, 1⟩, false⟩

/-- C1 counterexample: on the start-row-ordered input `[selTall, selCursor]`
the absorption loop replaces `end_row` (5, from `selTall`) by the cursor's
resolved end row (2), so the emitted range `0..2` does NOT satisfy
`end_row ≥ end_row_for s` for `s = selTall`, which is in the cluster: the
running `end_row` decreased during the cluster's construction. -/
theorem c1_counterexample :
    selTall.start.row ≤ selCursor.start.row ∧
    end_row_for selTall dmRowId = 5 ∧
    end_row_for selCursor dmRowId = 2 ∧
    ContiguousRowRanges.next dmRowId [selTall, selCursor] =
      some (((0, 2), [selTall, selCursor]), []) ∧
    ¬ end_row_for selTall dmRowId ≤ 2 := by
  decide

/-- C1 (amended): while absorbing further selections into the current cluster,
the running `end_row` is replaced outright by the newly consumed selection's
resolved end row (`end_row = end_row_for(next)`), so it may decrease; the
emitted row range `start_row..end_row` has `start_row` equal to the first
clustered selection's start row and `end_row` equal to `end_row_for` of the
last selection placed in the cluster. -/
theorem c1_cluster_end_row (display_map : DisplaySnapshot)
    (l : List (Selection Point)) (item : (Nat × Nat) × List (Selection Point))
    (rem : List (Selection Point))
    (h : ContiguousRowRanges.next display_map l = some (item, rem)) :
    (∃ first, item.2.head? = some first ∧ item.1.1 = first.start.row) ∧
    ∃ last, item.2.getLast? = some last ∧ item.1.2 = end_row_for last display_map := by
  cases l with
  | nil => simp [ContiguousRowRanges.next] at h
  | cons s rest =>
    simp only [ContiguousRowRanges.next, Option.some.injEq] at h
    injection h with h1 h2
    subst h1
    constructor
    · exact ⟨s, by simp, rfl⟩
    · rcases groupLoop_end_row display_map rest (end_row_for s display_map) with
        ⟨hnil, he⟩ | ⟨last, hlast, he⟩
      · exact ⟨s, by simp [hnil], he⟩
      · refine ⟨last, ?_, he⟩
        cases hrem : (groupLoop display_map (end_row_for s display_map) rest).2.1 with
        | nil => rw [hrem] at hlast; simp at hlast
        | cons a t =>
          rw [hrem] at hlast
          simpa [List.getLast?_cons_cons] using hlast

/-- Witness for `c1_cluster_end_row` at the concrete input of the
counterexample. -/
theorem c1_cluster_end_row_witness :
    (∃ first, ([selTall, selCursor] : List (Selection Point)).head? = some first ∧
      (0 : Nat) = first.start.row) ∧
    ∃ last, ([selTall, selCursor] : List (Selection Point)).getLast? = some last ∧
      (2 : Nat) = end_row_for last dmRowId :=
  c1_cluster_end_row dmRowId [selTall, selCursor] ((0, 2), [selTall, selCursor]) []
    (by decide)

/-- An input to the merger that is NOT sorted by ascending start. -/
def unsortedSelections : List (Selection Int) :=
  [⟨0, 5, 6, false⟩, ⟨1, 10, 12, false⟩, ⟨2, 0, 20, false⟩]

/-- C2 counterexample: with no ordering precondition the merger is not
idempotent.  On `[(5,6),(10,12),(0,20)]` one pass yields `[(5,6),(0,20)]`
(the last selection is folded into the second, dragging its start below the
first output's range), and a second pass merges the two remaining
selections, so `merge(merge(input)) ≠ merge(input)`. -/
theorem c2_counterexample :
    mergeAll (mergeAll unsortedSelections) ≠ mergeAll unsortedSelections := by
  simp [unsortedSelections, mergeAll_cons, mergeAll_nil, mergeGroup]

/-- C2 (amended): for every finite input sequence of selections over a
totally ordered copyable position type that is sorted by ascending start —
the ordering the merger's contract demands — the merger is idempotent:
`merge(merge(selections)) = merge(selections)`. -/
theorem c2_merge_idempotent_sorted {T : Type} [LinearOrder T]
    (l : List (Selection T))
    (h : List.Pairwise (fun a b => a.start ≤ b.start) l) :
    mergeAll (mergeAll l) = mergeAll l :=
  mergeAll_of_chain _ (mergeAll_chain l.length l le_rfl h)

/-- A start-sorted input to the merger. -/
def sortedSelections : List (Selection Int) :=
  [⟨0, 0, 5, false⟩, ⟨1, 3, 8, false⟩, ⟨2, 4, 6, false⟩]

/-- Witness for `c2_merge_idempotent_sorted` on a concrete sorted input. -/
theorem c2_merge_idempotent_sorted_witness :
    List.Pairwise (fun a b => a.start ≤ b.start) sortedSelections ∧
    mergeAll (mergeAll sortedSelections) = mergeAll sortedSelections :=
  ⟨by decide, c2_merge_idempotent_sorted sortedSelections (by decide)⟩

/-- C4: `end_row_for` returns `next_line_boundary(end).row + 1` when the
selection is empty or ends mid-line (end column > 0), and returns `end.row`
unchanged when the selection is non-empty and ends exactly at a row start
(end column = 0). -/
theorem c4_end_row_for (sel : Selection Point) (dm : DisplaySnapshot) :
    (sel.is_empty = true ∨ 0 < sel.«end».column →
      end_row_for sel dm = (dm.next_line_boundary sel.«end»).row + 1) ∧
    (sel.is_empty = false → sel.«end».column = 0 →
      end_row_for sel dm = sel.«end».row) := by
  constructor
  · intro h
    rcases h with h | h
    · rw [end_row_for, if_pos (Or.inr h)]
    · rw [end_row_for, if_pos (Or.inl h)]
  · intro h1 h2
    rw [end_row_for, if_neg]
    simp [h1, h2]

/-- Display snapshot for the C4 witness: the next line boundary after any
position is `(0, 10)`, matching the spec's scenario "selections
`[(0,3)-(0,3)]` (empty/cursor) and next-line-boundary at row 0 column 10 →
`end_row_for` returns 1". -/
def dmRowZero : DisplaySnapshot := ⟨fun _ => ⟨0, 10⟩⟩

/-- Empty selection (cursor) at `(0,3)`. -/
def selCursorC4 : Selection Point := ⟨0, ⟨0, 3⟩, ⟨0, 3⟩, false⟩

/-- Non-empty selection ending at the start of row 2. -/
def selRowEndC4 : Selection Point := ⟨1, ⟨0, 0⟩, ⟨2, 0⟩, false⟩

/-- Witness for `c4_end_row_for`: both branches at concrete selections. -/
theorem c4_end_row_for_witness :
    end_row_for selCursorC4 dmRowZero =
      (dmRowZero.next_line_boundary selCursorC4.«end»).row + 1 ∧
    end_row_for selRowEndC4 dmRowZero = selRowEndC4.«end».row :=
  ⟨(c4_end_row_for selCursorC4 dmRowZero).1 (Or.inl (by decide)),
   (c4_end_row_for selRowEndC4 dmRowZero).2 (by decide) (by decide)⟩

/-- The integer-range merge example from the spec:
`[(0,5),(3,8),(10,12)]`. -/
def mergeExampleIn : List (Selection Int) :=
  [⟨0, 0, 5, false⟩, ⟨1, 3, 8, false⟩, ⟨2, 10, 12, false⟩]

/-- Expected merger output for `mergeExampleIn`: `[(0,8),(10,12)]`. -/
def mergeExampleOut : List (Selection Int) :=
  [⟨0, 0, 8, false⟩, ⟨2, 10, 12, false⟩]

/-- C5: the merger folds the pending selection into the accumulator exactly
when `accumulator.end ≥ next.start` (touching counts as overlapping), setting
the accumulator's start to the minimum of the starts and its end to the
maximum of the ends; and merging `[(0,5),(3,8),(10,12)]` yields exactly
`[(0,8),(10,12)]`. -/
theorem c5_merge_condition (s n : Selection Int) :
    (n.start ≤ s.«end» →
      mergeAll [s, n] =
        [{ s with start := min s.start n.start, «end» := max s.«end» n.«end» }]) ∧
    (¬ n.start ≤ s.«end» → mergeAll [s, n] = [s, n]) ∧
    mergeAll mergeExampleIn = mergeExampleOut := by
  refine ⟨?_, ?_, ?_⟩
  · intro h
    have hs : (if n.start < s.start then n.start else s.start) = min s.start n.start := by
      rcases lt_or_le n.start s.start with h' | h'
      · rw [if_pos h', min_eq_right h'.le]
      · rw [if_neg (not_lt.mpr h'), min_eq_left h']
    have he : (if s.«end» < n.«end» then n.«end» else s.«end») = max s.«end» n.«end» := by
      rcases lt_or_le s.«end» n.«end» with h' | h'
      · rw [if_pos h', max_eq_right h'.le]
      · rw [if_neg (not_lt.mpr h'), max_eq_left h']
    rw [mergeAll_cons]
    simp only [mergeGroup, if_pos h, mergeAll_nil]
    rw [hs, he]
  · intro h
    rw [mergeAll_cons]
    simp [mergeGroup, if_neg h, mergeAll_cons, mergeAll_nil]
  · simp [mergeExampleIn, mergeExampleOut, mergeAll_cons, mergeAll_nil, mergeGroup]

/-- Abutting selections for the C5 witness: `(0,5)` and `(5,9)` share the
boundary `5` and are merged into one. -/
def selAbutLo : Selection Int := ⟨0, 0, 5, false⟩

/-- Second abutting selection for the C5 witness. -/
def selAbutHi : Selection Int := ⟨1, 5, 9, false⟩

/-- A selection disjoint from `selAbutLo`, for the non-merging branch. -/
def selFar : Selection Int := ⟨2, 7, 9, false⟩

/-- Witness for `c5_merge_condition`: exactly-abutting selections merge
(with min/max bounds), strictly separated selections do not. -/
theorem c5_merge_condition_witness :
    mergeAll [selAbutLo, selAbutHi] =
      [{ selAbutLo with
          start := min selAbutLo.start selAbutHi.start
          «end» := max selAbutLo.«end» selAbutHi.«end» }] ∧
    mergeAll [selAbutLo, selFar] = [selAbutLo, selFar] :=
  ⟨(c5_merge_condition selAbutLo selAbutHi).1 (by decide),
   (c5_merge_condition selAbutLo selFar).2.1 (by decide)⟩

/-! ## `gpui` pixel geometry (`crates/gpui/src/elements/text.rs`)

Pixel scalars are modelled as `Int` (see the header comment). -/

/-- `Point<Pixels>`. -/
structure PixelPoint where
  x : Int
  y : Int
deriving DecidableEq

/-- `Size<Pixels>`. -/
structure Size where
  width : Int
  height : Int
deriving DecidableEq

/-- `Bounds<Pixels>`: an origin and a size. -/
structure Bounds where
  origin : PixelPoint
  size : Size
deriving DecidableEq

/-- `Bounds::top`: the vertical coordinate of the upper edge. -/
def Bounds.top (b : Bounds) : Int := b.origin.y

/-- A shaped wrapped line, as the layout code consumes it: an opaque value
exposing its source byte length, its rendered size for a given line height,
a horizontal hit-test and its inverse.  The function fields are ground truth
supplied by the external shaper. -/
structure WrappedLine where
  len : Nat
  size : Int → Size
  index_for_position : PixelPoint → Int → Except Nat Nat
  position_for_index : Nat → Int → Option PixelPoint

/-- `TextLayoutInner`: the state cell guarded by the layout's mutex. -/
structure TextLayoutInner where
  lines : List WrappedLine
  line_height : Int
  wrap_width : Option Int
  size : Option Size
  bounds : Option Bounds

/-! ## `TextLayout::layout`'s measurement callback (text.rs lines 289-368) -/

/-- Outcome of one invocation of the measurement callback: the size returned
to the layout system, the (possibly replaced) cached state, and whether the
callback reached the external shaper (`truncate_line` / `shape_text`). -/
structure MeasureResult where
  size : Size
  state : Option TextLayoutInner
  called_truncate : Bool
  called_shape : Bool

/-- Total size of a shaped line set: heights are summed, the width is the
running maximum of the line widths (whole pixels, so the source's `ceil` is
the identity). -/
def computeSize (lines : List WrappedLine) (line_height : Int) : Size :=
  lines.foldl
    (fun acc line =>
      let line_size := line.size line_height
      ⟨max acc.width line_size.width, acc.height + line_size.height⟩)
    ⟨0, 0⟩

/-- The re-shaping path of the measurement callback: call `truncate_line`
when a truncation width was resolved, then `shape_text` (modelled by the
opaque `shaper` argument, `none` standing for `Err`).  On shaper failure the
state is replaced by an empty line set of zero size; on success by the shaped
lines and their computed size.  Both paths leave `bounds` unset. -/
def reshape (wrap_width truncate_width : Option Int) (line_height : Int)
    (shaper : Option (List WrappedLine)) : MeasureResult :=
  match shaper with
  | none =>
    { size := ⟨0, 0⟩
      state := some ⟨[], line_height, wrap_width, some ⟨0, 0⟩, none⟩
      called_truncate := truncate_width.isSome
      called_shape := true }
  | some lines =>
    let sz := computeSize lines line_height
    { size := sz
      state := some ⟨lines, line_height, wrap_width, some sz, none⟩
      called_truncate := truncate_width.isSome
      called_shape := true }

/-- The measurement callback registered by `TextLayout::layout`: first the
cache short-circuit (a previously stored size is returned unchanged when no
wrap width is requested or it equals the cached one), otherwise the
re-shaping path. -/
def layoutMeasure (st : Option TextLayoutInner)
    (wrap_width truncate_width : Option Int) (line_height : Int)
    (shaper : Option (List WrappedLine)) : MeasureResult :=
  match st with
  | some inner =>
    match inner.size with
    | some sz =>
      if wrap_width = none ∨ wrap_width = inner.wrap_width then
        { size := sz, state := some inner
          called_truncate := false, called_shape := false }
      else
        reshape wrap_width truncate_width line_height shaper
    | none => reshape wrap_width truncate_width line_height shaper
  | none => reshape wrap_width truncate_width line_height shaper

/-- `TextLayout::prepaint` (text.rs lines 376-383): panics (modelled by the
outer `none`) when layout has never run, otherwise records the bounds. -/
def TextLayout.prepaint (st : Option TextLayoutInner) (bounds : Bounds) :
    Option (Option TextLayoutInner) :=
  match st with
  | none => none
  | some inner => some (some { inner with bounds := some bounds })

/-- The line origins at which `TextLayout::paint` paints the lines: each line
is painted at the accumulating origin, whose `y` grows by the line's rendered
height; `x` stays at the bound origin's `x`. -/
def paintOrigins (line_height : Int) (origin : PixelPoint) :
    List WrappedLine → List PixelPoint
  | [] => []
  | line :: rest =>
    origin ::
      paintOrigins line_height
        ⟨origin.x, origin.y + (line.size line_height).height⟩ rest

/-- `TextLayout::paint` (text.rs lines 385-402): panics (modelled by `none`)
before layout or before prepaint; otherwise paints each line at the
accumulating origin. -/
def TextLayout.paint (st : Option TextLayoutInner) : Option (List PixelPoint) :=
  match st with
  | none => none
  | some inner =>
    match inner.bounds with
    | none => none
    | some bounds =>
      some (paintOrigins inner.line_height bounds.origin inner.lines)

/-! ## `TextLayout::index_for_position` (text.rs lines 405-436) -/

/-- The scanning loop of `index_for_position`: walk the lines top to bottom,
accumulating the line origin's `y` and `line_start_ix` (each previous line's
length plus one separator byte); the first line whose vertical band contains
the point delegates the horizontal hit-test, offset by `line_start_ix`; if
every line lies above the point, report a miss at `line_start_ix - 1`
(`Nat` subtraction saturates at zero, like the source's `saturating_sub`). -/
def indexLoop (position : PixelPoint) (line_height origin_x : Int) :
    List WrappedLine → Int → Nat → Except Nat Nat
  | [], _, line_start_ix => Except.error (line_start_ix - 1)
  | line :: rest, line_origin_y, line_start_ix =>
    let line_bottom := line_origin_y + (line.size line_height).height
    if line_bottom < position.y then
      indexLoop position line_height origin_x rest line_bottom
        (line_start_ix + line.len + 1)
    else
      match line.index_for_position
          ⟨position.x - origin_x, position.y - line_origin_y⟩ line_height with
      | Except.ok index_within_line => Except.ok (line_start_ix + index_within_line)
      | Except.error index_within_line =>
        Except.error (line_start_ix + index_within_line)

/-- `TextLayout::index_for_position`: panics (modelled by the outer `none`)
before layout or before prepaint; otherwise reports `Err 0` for a point above
the bounds' top edge and scans the lines. -/
def TextLayout.index_for_position (st : Option TextLayoutInner)
    (position : PixelPoint) : Option (Except Nat Nat) :=
  match st with
  | none => none
  | some inner =>
    match inner.bounds with
    | none => none
    | some bounds =>
      if position.y < bounds.top then
        some (Except.error 0)
      else
        some (indexLoop position inner.line_height bounds.origin.x inner.lines
          bounds.origin.y 0)

/-! ## `TextLayout::position_for_index` (text.rs lines 439-467) -/

/-- The scanning loop of `position_for_index`: skip lines whose inclusive end
index is below the target, and delegate to the first line whose index range
contains the target (an index equal to a line's end stays in that line); the
line's own mapping may itself decline with `none`, which propagates. -/
def posLoop (index : Nat) (line_height origin_x : Int) :
    List WrappedLine → Int → Nat → Option PixelPoint
  | [], _, _ => none
  | line :: rest, line_origin_y, line_start_ix =>
    let line_end_ix := line_start_ix + line.len
    if index < line_start_ix then
      none
    else if line_end_ix < index then
      posLoop index line_height origin_x rest
        (line_origin_y + (line.size line_height).height) (line_end_ix + 1)
    else
      (line.position_for_index (index - line_start_ix) line_height).map
        (fun p => ⟨origin_x + p.x, line_origin_y + p.y⟩)

/-- `TextLayout::position_for_index`: panics (modelled by the outer `none`)
before layout or before prepaint; the inner option is the method's return
value. -/
def TextLayout.position_for_index (st : Option TextLayoutInner) (index : Nat) :
    Option (Option PixelPoint) :=
  match st with
  | none => none
  | some inner =>
    match inner.bounds with
    | none => none
    | some bounds =>
      some (posLoop index inner.line_height bounds.origin.x inner.lines
        bounds.origin.y 0)

/-! ## Cache short-circuit characterisation -/

/-- The condition under which the measurement callback returns the cached
size: a prior layout stored a size, and either no wrap width is requested now
or the requested wrap width equals the cached one. -/
def cacheHit (st : Option TextLayoutInner) (wrap_width : Option Int) : Prop :=
  ∃ inner sz, st = some inner ∧ inner.size = some sz ∧
    (wrap_width = none ∨ wrap_width = inner.wrap_width)

theorem reshape_called_shape (wrap_width truncate_width : Option Int)
    (line_height : Int) (shaper : Option (List WrappedLine)) :
    (reshape wrap_width truncate_width line_height shaper).called_shape = true := by
  cases shaper <;> rfl

theorem layoutMeasure_of_not_cacheHit (st : Option TextLayoutInner)
    (wrap_width truncate_width : Option Int) (line_height : Int)
    (shaper : Option (List WrappedLine)) (h : ¬ cacheHit st wrap_width) :
    layoutMeasure st wrap_width truncate_width line_height shaper =
      reshape wrap_width truncate_width line_height shaper := by
  cases st with
  | none => rfl
  | some inner =>
    cases hsz : inner.size with
    | none => simp [layoutMeasure, hsz]
    | some sz =>
      simp only [layoutMeasure, hsz]
      rw [if_neg]
      intro hw
      exact h ⟨inner, sz, rfl, hsz, hw⟩

theorem layoutMeasure_of_cacheHit (inner : TextLayoutInner) (sz : Size)
    (wrap_width truncate_width : Option Int) (line_height : Int)
    (shaper : Option (List WrappedLine)) (hsz : inner.size = some sz)
    (hw : wrap_width = none ∨ wrap_width = inner.wrap_width) :
    layoutMeasure (some inner) wrap_width truncate_width line_height shaper =
      ⟨sz, some inner, false, false⟩ := by
  simp [layoutMeasure, hsz, if_pos hw]

/-- C6: the measurement callback returns the previously cached size without
re-shaping (neither `truncate_line` nor `shape_text` is reached, and the
cached state is untouched) exactly when a prior layout stored a size and
either the newly resolved wrap width is none or it equals the cached
`wrap_width`; in all other cases it re-shapes. -/
theorem c6_cache_short_circuit (st : Option TextLayoutInner)
    (wrap_width truncate_width : Option Int) (line_height : Int)
    (shaper : Option (List WrappedLine)) :
    ((layoutMeasure st wrap_width truncate_width line_height shaper).called_shape
        = false ↔ cacheHit st wrap_width) ∧
    (∀ inner sz, st = some inner → inner.size = some sz →
      (wrap_width = none ∨ wrap_width = inner.wrap_width) →
      layoutMeasure st wrap_width truncate_width line_height shaper =
        ⟨sz, some inner, false, false⟩) := by
  constructor
  · constructor
    · intro h
      by_contra hc
      rw [layoutMeasure_of_not_cacheHit st wrap_width truncate_width line_height
        shaper hc, reshape_called_shape] at h
      exact Bool.true_eq_false.mp h
    · rintro ⟨inner, sz, rfl, hsz, hw⟩
      rw [layoutMeasure_of_cacheHit inner sz wrap_width truncate_width
        line_height shaper hsz hw]
  · rintro inner sz rfl hsz hw
    exact layoutMeasure_of_cacheHit inner sz wrap_width truncate_width
      line_height shaper hsz hw

/-- A cached state from a previous layout pass at wrap width 80. -/
def innerCached : TextLayoutInner := ⟨[], 10, some 80, some ⟨40, 10⟩, none⟩

/-- Witness for `c6_cache_short_circuit`: re-laying out `innerCached` at the
same wrap width returns the cached size with no shaper call. -/
theorem c6_cache_short_circuit_witness :
    layoutMeasure (some innerCached) (some 80) none 10 none =
      ⟨⟨40, 10⟩, some innerCached, false, false⟩ :=
  (c6_cache_short_circuit (some innerCached) (some 80) none 10 none).2
    innerCached ⟨40, 10⟩ rfl rfl (Or.inr rfl)

/-- C7: whenever `shape_text` fails (and the cache did not short-circuit, so
the shaper is actually consulted), the measurement callback installs a state
with an empty line list, the current line height and a zero size, leaves
bounds unset, and returns zero size to the caller; the failure is absorbed
— the embedded callback is total, so nothing is propagated. -/
theorem c7_shaper_failure (st : Option TextLayoutInner)
    (wrap_width truncate_width : Option Int) (line_height : Int)
    (h : ¬ cacheHit st wrap_width) :
    layoutMeasure st wrap_width truncate_width line_height none =
      { size := ⟨0, 0⟩
        state := some ⟨[], line_height, wrap_width, some ⟨0, 0⟩, none⟩
        called_truncate := truncate_width.isSome
        called_shape := true } := by
  rw [layoutMeasure_of_not_cacheHit st wrap_width truncate_width line_height none h]
  rfl

/-- Witness for `c7_shaper_failure`: first layout (no cached state) with a
failing shaper. -/
theorem c7_shaper_failure_witness :
    layoutMeasure none (some 80) none 12 none =
      { size := ⟨0, 0⟩
        state := some ⟨[], 12, some 80, some ⟨0, 0⟩, none⟩
        called_truncate := (none : Option Int).isSome
        called_shape := true } :=
  c7_shaper_failure none (some 80) none 12 (by simp [cacheHit])

/-- A state as left by a successful layout pass, before any prepaint:
`size` is set, `bounds` is not. -/
def preInner : TextLayoutInner := ⟨[], 10, none, some ⟨0, 0⟩, none⟩

/-- C3 counterexample: calling `index_for_position` on a laid-out but
not-yet-prepainted state does NOT return a "nearest boundary" `Err` value —
it panics (the source's `expect("prepaint has not been performed")`,
modelled by `none`). -/
theorem c3_counterexample :
    TextLayout.index_for_position (some preInner) ⟨0, 0⟩ = none ∧
    ∀ i : Nat,
      TextLayout.index_for_position (some preInner) ⟨0, 0⟩ ≠ some (Except.error i) := by
  refine ⟨rfl, ?_⟩
  intro i h
  exact Option.noConfusion h

/-- C3 (amended): for every point, calling `index_for_position` before
prepaint has recorded bounds (whether layout has run or not) panics — a hard
`InvalidState` failure, modelled by `none` — rather than returning an `Err`
boundary indicator. -/
theorem c3_panics_before_prepaint (st : Option TextLayoutInner) (p : PixelPoint)
    (h : st = none ∨ ∃ inner, st = some inner ∧ inner.bounds = none) :
    TextLayout.index_for_position st p = none := by
  rcases h with rfl | ⟨inner, rfl, hb⟩
  · rfl
  · simp [TextLayout.index_for_position, hb]

/-- Witness for `c3_panics_before_prepaint` at a laid-out, not-prepainted
state. -/
theorem c3_panics_before_prepaint_witness :
    TextLayout.index_for_position (some preInner) ⟨3, 7⟩ = none :=
  c3_panics_before_prepaint (some preInner) ⟨3, 7⟩ (Or.inr ⟨preInner, rfl, rfl⟩)

/-! ## Geometry query lemmas -/

/-- The point lies strictly below every line's band: mirrors the skip branch
of the `index_for_position` loop, accumulating each line's bottom edge. -/
def belowAllLines (py line_height : Int) : List WrappedLine → Int → Bool
  | [], _ => true
  | line :: rest, line_origin_y =>
    let line_bottom := line_origin_y + (line.size line_height).height
    decide (line_bottom < py) && belowAllLines py line_height rest line_bottom

/-- The accumulated `line_start_ix` over a whole line list: each line's byte
length plus one separator byte. -/
def lineStartIxTotal : List WrappedLine → Nat
  | [] => 0
  | line :: rest => line.len + 1 + lineStartIxTotal rest

theorem indexLoop_below (position : PixelPoint) (line_height origin_x : Int) :
    ∀ (lines : List WrappedLine) (line_origin_y : Int) (line_start_ix : Nat),
      belowAllLines position.y line_height lines line_origin_y = true →
      indexLoop position line_height origin_x lines line_origin_y line_start_ix =
        Except.error (line_start_ix + lineStartIxTotal lines - 1) := by
  intro lines
  induction lines with
  | nil =>
    intro line_origin_y line_start_ix _
    simp [indexLoop, lineStartIxTotal]
  | cons line rest ih =>
    intro line_origin_y line_start_ix h
    simp only [belowAllLines, Bool.and_eq_true, decide_eq_true_eq] at h
    obtain ⟨h1, h2⟩ := h
    simp only [indexLoop, if_pos h1]
    rw [ih _ _ h2]
    congr 1
    simp only [lineStartIxTotal]
    omega

/-- C8: after prepaint, `index_for_position` returns the miss `Err 0`
whenever the point's `y` is above the bounds' top edge; and when it is not
above the top but lies below every line's band, it returns a miss at
`line_start_ix - 1` (saturating at zero), where `line_start_ix` is the sum
over all lines of each line's byte length plus one separator byte. -/
theorem c8_index_for_position_misses (inner : TextLayoutInner) (b : Bounds)
    (p : PixelPoint) (hb : inner.bounds = some b) :
    (p.y < b.top → TextLayout.index_for_position (some inner) p =
      some (Except.error 0)) ∧
    (¬ p.y < b.top →
      belowAllLines p.y inner.line_height inner.lines b.origin.y = true →
      TextLayout.index_for_position (some inner) p =
        some (Except.error (lineStartIxTotal inner.lines - 1))) := by
  constructor
  · intro h
    simp only [TextLayout.index_for_position, hb]
    rw [if_pos h]
  · intro h1 h2
    simp only [TextLayout.index_for_position, hb]
    rw [if_neg h1, indexLoop_below p inner.line_height b.origin.x inner.lines
      b.origin.y 0 h2, Nat.zero_add]

/-- A concrete shaped line of length 5, width 30, one row high. -/
def lineFive : WrappedLine :=
  ⟨5, fun line_height => ⟨30, line_height⟩,
   fun p _ => Except.ok p.x.toNat,
   fun i _ => some ⟨6 * Int.ofNat i, 0⟩⟩

/-- Bounds binding a two-line layout at `(0, 100)`. -/
def bTwoLines : Bounds := ⟨⟨0, 100⟩, ⟨30, 20⟩⟩

/-- A prepainted two-line layout state (two lines of length 5, line height
10, bound at `(0, 100)`). -/
def innerTwoLines : TextLayoutInner :=
  ⟨[lineFive, lineFive], 10, none, some ⟨30, 20⟩, some bTwoLines⟩

/-- Witness for `c8_index_for_position_misses`: a point above the bound's top
misses at index 0; a point below both lines misses at the end of the last
line (byte index 11 = 5 + 1 + 5). -/
theorem c8_index_for_position_misses_witness :
    TextLayout.index_for_position (some innerTwoLines) ⟨0, 50⟩ =
      some (Except.error 0) ∧
    TextLayout.index_for_position (some innerTwoLines) ⟨0, 130⟩ =
      some (Except.error (lineStartIxTotal innerTwoLines.lines - 1)) :=
  ⟨(c8_index_for_position_misses innerTwoLines bTwoLines ⟨0, 50⟩ rfl).1 (by decide),
   (c8_index_for_position_misses innerTwoLines bTwoLines ⟨0, 130⟩ rfl).2
     (by decide) (by decide)⟩

/-- Sum of the rendered heights of a line list at a given line height. -/
def heightSum (line_height : Int) : List WrappedLine → Int
  | [] => 0
  | line :: rest => (line.size line_height).height + heightSum line_height rest

theorem posLoop_past_all (index : Nat) (line_height origin_x : Int) :
    ∀ (lines : List WrappedLine) (line_origin_y : Int) (line_start_ix : Nat),
      line_start_ix + lineStartIxTotal lines ≤ index →
      posLoop index line_height origin_x lines line_origin_y line_start_ix = none := by
  intro lines
  induction lines with
  | nil => intros; simp [posLoop]
  | cons line rest ih =>
    intro line_origin_y line_start_ix h
    simp only [lineStartIxTotal] at h
    have h1 : ¬ index < line_start_ix := by omega
    have h2 : line_start_ix + line.len < index := by omega
    simp only [posLoop, if_neg h1, if_pos h2]
    exact ih _ _ (by omega)

theorem posLoop_delegate (index : Nat) (line_height origin_x : Int) :
    ∀ (pre : List WrappedLine) (line : WrappedLine) (post : List WrappedLine)
      (line_origin_y : Int) (line_start_ix : Nat),
      line_start_ix + lineStartIxTotal pre ≤ index →
      index ≤ line_start_ix + lineStartIxTotal pre + line.len →
      posLoop index line_height origin_x (pre ++ line :: post) line_origin_y
          line_start_ix =
        (line.position_for_index (index - (line_start_ix + lineStartIxTotal pre))
            line_height).map
          (fun p =>
            ⟨origin_x + p.x, line_origin_y + heightSum line_height pre + p.y⟩) := by
  intro pre
  induction pre with
  | nil =>
    intro line post line_origin_y line_start_ix h1 h2
    simp only [lineStartIxTotal] at h1 h2
    have hn1 : ¬ index < line_start_ix := by omega
    have hn2 : ¬ line_start_ix + line.len < index := by omega
    simp only [List.nil_append, posLoop, if_neg hn1, if_neg hn2, heightSum,
      lineStartIxTotal, Nat.add_zero, add_zero]
  | cons x pre' ih =>
    intro line post line_origin_y line_start_ix h1 h2
    simp only [lineStartIxTotal] at h1 h2
    have hx1 : ¬ index < line_start_ix := by omega
    have hx2 : line_start_ix + x.len < index := by omega
    simp only [List.cons_append, posLoop, if_neg hx1, if_pos hx2, List.append_eq]
    rw [ih line post _ _ (by omega) (by omega)]
    have harg : index - (line_start_ix + x.len + 1 + lineStartIxTotal pre') =
        index - (line_start_ix + lineStartIxTotal (x :: pre')) := by
      simp only [lineStartIxTotal]
      omega
    have hfun :
        (fun p : PixelPoint =>
          (⟨origin_x + p.x,
            line_origin_y + (x.size line_height).height + heightSum line_height pre'
              + p.y⟩ : PixelPoint)) =
        (fun p : PixelPoint =>
          (⟨origin_x + p.x,
            line_origin_y + heightSum line_height (x :: pre') + p.y⟩ :
              PixelPoint)) := by
      funext p
      simp only [heightSum, PixelPoint.mk.injEq, true_and]
      ring
    rw [harg, hfun]

/-- C9: after prepaint, `position_for_index` returns none for every index
past the total laid-out text length; and an index inside the text is
resolved by the unique line whose start offset is ≤ the index and whose
inclusive end offset (start plus length) is ≥ the index — in particular an
index equal to a line's end offset is delegated to that line, not the next
one. -/
theorem c9_position_for_index (inner : TextLayoutInner) (b : Bounds)
    (hb : inner.bounds = some b) :
    (∀ index, lineStartIxTotal inner.lines - 1 < index →
      TextLayout.position_for_index (some inner) index = some none) ∧
    (∀ pre line post index, inner.lines = pre ++ line :: post →
      lineStartIxTotal pre ≤ index → index ≤ lineStartIxTotal pre + line.len →
      TextLayout.position_for_index (some inner) index =
        some ((line.position_for_index (index - lineStartIxTotal pre)
            inner.line_height).map
          (fun p =>
            ⟨b.origin.x + p.x,
             b.origin.y + heightSum inner.line_height pre + p.y⟩))) := by
  constructor
  · intro index h
    simp only [TextLayout.position_for_index, hb]
    rw [posLoop_past_all index inner.line_height b.origin.x inner.lines
      b.origin.y 0 (by omega)]
  · intro pre line post index hsplit h1 h2
    simp only [TextLayout.position_for_index, hb, hsplit]
    rw [posLoop_delegate index inner.line_height b.origin.x pre line post
      b.origin.y 0 (by omega) (by omega), Nat.zero_add]

/-- Witness for `c9_position_for_index`: index 12 is past the two-line text
(total length 11) and yields none; index 5 — exactly the first line's end —
is delegated to the first line, not the second. -/
theorem c9_position_for_index_witness :
    TextLayout.position_for_index (some innerTwoLines) 12 = some none ∧
    TextLayout.position_for_index (some innerTwoLines) 5 =
      some ((lineFive.position_for_index (5 - lineStartIxTotal [])
          innerTwoLines.line_height).map
        (fun p =>
          ⟨bTwoLines.origin.x + p.x,
           bTwoLines.origin.y + heightSum innerTwoLines.line_height [] + p.y⟩)) :=
  ⟨(c9_position_for_index innerTwoLines bTwoLines rfl).1 12 (by decide),
   (c9_position_for_index innerTwoLines bTwoLines rfl).2 [] lineFive [lineFive] 5
     rfl (by decide) (by decide)⟩

/-! ## State invariants across layout and prepaint -/

/-- Whenever the cell holds a state, that state has a size (`size` is set by
every state-installing path of `layout`). -/
def SizeSet (st : Option TextLayoutInner) : Prop :=
  ∀ inner, st = some inner → inner.size.isSome = true

/-- The claimed invariant: `bounds` is set only while `size` is set. -/
def BoundsOnlyWithSize (st : Option TextLayoutInner) : Prop :=
  ∀ inner, st = some inner → inner.bounds.isSome = true → inner.size.isSome = true

/-- C10: every layout pass that actually re-shapes — on both the
shaper-success and the shaper-failure path — replaces the whole cached state
with a fresh value whose `bounds` is `none` (and whose `size` is set), so
bounds recorded by an earlier prepaint are discarded and paint and the
geometry queries panic again until the next prepaint; the layout output
always satisfies the bounds-only-with-size invariant, and prepaint preserves
it on any state a layout pass can leave behind (one satisfying `SizeSet`). -/
theorem c10_reshape_resets_bounds (st : Option TextLayoutInner)
    (wrap_width truncate_width : Option Int) (line_height : Int)
    (shaper : Option (List WrappedLine)) (b : Bounds) (p : PixelPoint)
    (index : Nat) :
    (¬ cacheHit st wrap_width →
      ∃ inner,
        (layoutMeasure st wrap_width truncate_width line_height shaper).state =
          some inner ∧
        inner.bounds = none ∧ inner.size.isSome = true ∧
        TextLayout.index_for_position
          (layoutMeasure st wrap_width truncate_width line_height shaper).state p
            = none ∧
        TextLayout.position_for_index
          (layoutMeasure st wrap_width truncate_width line_height shaper).state
            index = none ∧
        TextLayout.paint
          (layoutMeasure st wrap_width truncate_width line_height shaper).state
            = none) ∧
    SizeSet (layoutMeasure st wrap_width truncate_width line_height shaper).state ∧
    BoundsOnlyWithSize
      (layoutMeasure st wrap_width truncate_width line_height shaper).state ∧
    (SizeSet st → ∀ st', TextLayout.prepaint st b = some st' →
      BoundsOnlyWithSize st' ∧ SizeSet st') := by
  have hSize :
      SizeSet (layoutMeasure st wrap_width truncate_width line_height shaper).state := by
    intro inner' h'
    by_cases hc : cacheHit st wrap_width
    · obtain ⟨inner, sz, rfl, hsz, hw⟩ := hc
      rw [layoutMeasure_of_cacheHit inner sz wrap_width truncate_width
        line_height shaper hsz hw] at h'
      obtain rfl : inner = inner' := by simpa using h'
      simp [hsz]
    · rw [layoutMeasure_of_not_cacheHit st wrap_width truncate_width line_height
        shaper hc] at h'
      cases shaper with
      | none =>
        obtain rfl : _ = inner' := by simpa [reshape] using h'
        rfl
      | some lines =>
        obtain rfl : _ = inner' := by simpa [reshape] using h'
        rfl
  refine ⟨?_, hSize, fun inner' h' _ => hSize inner' h', ?_⟩
  · intro h
    rw [layoutMeasure_of_not_cacheHit st wrap_width truncate_width line_height
      shaper h]
    cases shaper with
    | none => exact ⟨_, rfl, rfl, rfl, rfl, rfl, rfl⟩
    | some lines => exact ⟨_, rfl, rfl, rfl, rfl, rfl, rfl⟩
  · intro hS st' hpre
    cases st with
    | none => exact Option.noConfusion hpre
    | some inner =>
      obtain rfl : _ = st' := by simpa [TextLayout.prepaint] using hpre
      have hsz : inner.size.isSome = true := hS inner rfl
      constructor
      · intro inner' h' _
        obtain rfl : _ = inner' := by simpa using h'
        simpa using hsz
      · intro inner' h'
        obtain rfl : _ = inner' := by simpa using h'
        simpa using hsz

/-- The state installed by a prepaint at `bTwoLines` over the laid-out state
`preInner`. -/
def postPrepaintInner : TextLayoutInner := { preInner with bounds := some bTwoLines }

/-- Witness for `c10_reshape_resets_bounds`: a first layout pass with a
successful shaper installs a bounds-free state on which the queries and
paint panic, and a prepaint over a laid-out state preserves the
bounds-only-with-size invariant. -/
theorem c10_reshape_resets_bounds_witness :
    (∃ inner,
      (layoutMeasure none (some 80) none 10 (some [lineFive])).state = some inner ∧
      inner.bounds = none ∧ inner.size.isSome = true ∧
      TextLayout.index_for_position
        (layoutMeasure none (some 80) none 10 (some [lineFive])).state ⟨0, 0⟩
          = none ∧
      TextLayout.position_for_index
        (layoutMeasure none (some 80) none 10 (some [lineFive])).state 0 = none ∧
      TextLayout.paint
        (layoutMeasure none (some 80) none 10 (some [lineFive])).state = none) ∧
    (BoundsOnlyWithSize (some postPrepaintInner) ∧ SizeSet (some postPrepaintInner)) :=
  ⟨(c10_reshape_resets_bounds none (some 80) none 10 (some [lineFive]) bTwoLines
      ⟨0, 0⟩ 0).1 (by simp [cacheHit]),
   (c10_reshape_resets_bounds (some preInner) (some 80) none 10 none bTwoLines
      ⟨0, 0⟩ 0).2.2.2 (fun inner h => by cases h; rfl) (some postPrepaintInner) rfl⟩

end Zed
